import Mathlib

/-!
Verification of the narrative merge engine of the sadot-rishonim repository,
embedded from `src/movie/scripts/03_merge_books_with_ai_tags.py`.

The embedding mirrors the Python source:
* a JSON page dict becomes `Page` (fields that a `dict.get` may miss are
  `Option`; fields read with a default are `Option` and materialised with
  `Option.getD` at each use site, exactly where the Python default applies);
* Python ints are `Int`, Python strings are `String`, Python sets of ints are
  `Finset Int`, Python lists are `List`;
* `sorted`/`list.sort` (Timsort, stable) is modelled by a stable insertion
  sort `stableSortKey`, which inserts each element after all earlier elements
  whose key is less than or equal to its own — the same stable behaviour;
* Python dicts used only through membership / lookup / overwrite are modelled
  as association lists with `dictGet` / `dictSet` (overwrite-in-place);
* the f-string key `f"{page}_{start}_{end}"` built from the integer triple is
  modelled by the triple itself (the f-string is injective on such triples).
-/

namespace SadotRishonim

/-- One line record of a page: `{line_number, text}`.  `line.get('line_number', 0)`
and `line.get('text', '')` always succeed in the source, so the fields are plain. -/
structure Line where
  line_number : Int
  text : String
deriving DecidableEq

/-- One AI tag attached to a page (`line_tags` entry).  `tag.get('line_start')`
returns `None` when the key is absent or null, modelled by `Option`; a non-integer
value is also modelled as `none` (it fails the same `isinstance` check). -/
structure Tag where
  line_start : Option Int
  line_end : Option Int
  year : Option Int
  month : Option String
  location : Option String
  confidence : Option String
deriving DecidableEq

/-- One page dict of `pages_tagged_by_ai.json` as the merge scripts read it. -/
structure Page where
  book_id : String
  book_name : Option String
  page_number : Int
  chapter : Option String
  full_text : String
  lines : List Line
  line_tags : List Tag
deriving DecidableEq

/-- One insertion point dict of `insertion_points.json`
(`{source_page, source_line_start, source_line_end, insert_after_page,
insert_after_line, insert_reason, confidence}`). -/
structure InsertionPoint where
  source_page : Int
  source_line_start : Int
  source_line_end : Int
  insert_after_page : Int
  insert_after_line : Int
  insert_reason : Option String
  confidence : Option String
deriving DecidableEq

/-- `max([line.get('line_number', 0) for line in lines], default=0)` of
`validate_line_range`. -/
def maxLineNumber (page : Page) : Int :=
  (page.lines.map (fun l => l.line_number)).foldl max 0

/-- `validate_line_range(page, line_start, line_end)` — returns the
`(ok, error_message)` pair of the source.  `none` bounds model missing /
non-integer values (the `isinstance` check). -/
def validate_line_range (page : Page) (line_start line_end : Option Int) :
    Bool × Option String :=
  match line_start, line_end with
  | some s, some e =>
    if s < 1 ∨ e < 1 then (false, some "Line numbers must be >= 1")
    else if s > e then (false, some "line_start > line_end")
    else if e > maxLineNumber page then (false, some "line_end > max line")
    else (true, none)
  | _, _ => (false, some "Line numbers must be integers")

/-- The accumulation loop of `extract_text_from_line_range`:
`for line in lines: if line_start <= line_num <= line_end: text_lines.append(...)`. -/
def collectTextLines (line_start line_end : Int) : List Line → List String
  | [] => []
  | l :: rest =>
    if line_start ≤ l.line_number ∧ l.line_number ≤ line_end then
      l.text :: collectTextLines line_start line_end rest
    else
      collectTextLines line_start line_end rest

/-- `extract_text_from_line_range(page, line_start, line_end)` (identical in
`03_merge_books_with_ai_tags.py` and `02b_determine_insertion_points.py`). -/
def extract_text_from_line_range (page : Page) (line_start line_end : Int) : String :=
  String.intercalate "\n" (collectTextLines line_start line_end page.lines)

/-- The dict returned by `check_line_coverage`. -/
structure Coverage where
  total_lines : Nat
  covered_lines : Finset Int
  missing_lines : Finset Int
  overlapping_ranges : List ((Int × Int) × (Int × Int))
  invalid_ranges : List (Nat × Option Int × Option Int × String)
deriving DecidableEq

/-- The inner `for prev_tag in line_tags[:i]` loop: collect the overlap pairs a
valid current range `(s, e)` forms with earlier tags whose bounds are truthy
(non-null and non-zero), whether or not those earlier tags are valid ranges. -/
def overlapsWithPrev (s e : Int) : List Tag → List ((Int × Int) × (Int × Int))
  | [] => []
  | t :: rest =>
    match t.line_start, t.line_end with
    | some ps, some pe =>
      if ps ≠ 0 ∧ pe ≠ 0 then
        if ((Finset.Icc s e) ∩ (Finset.Icc ps pe)).Nonempty then
          ((ps, pe), (s, e)) :: overlapsWithPrev s e rest
        else overlapsWithPrev s e rest
      else overlapsWithPrev s e rest
    | _, _ => overlapsWithPrev s e rest

/-- The `for i, tag in enumerate(line_tags)` loop of `check_line_coverage`,
threading `(covered_lines, overlapping_ranges, invalid_ranges)`; `prev` is the
already-scanned prefix `line_tags[:i]` and `i` the running index. -/
def coverageLoop (page : Page) :
    List Tag → List Tag → Nat →
    Finset Int × List ((Int × Int) × (Int × Int)) ×
      List (Nat × Option Int × Option Int × String) →
    Finset Int × List ((Int × Int) × (Int × Int)) ×
      List (Nat × Option Int × Option Int × String)
  | [], _, _, acc => acc
  | t :: rest, prev, i, (covered, overl, invalid) =>
    match validate_line_range page t.line_start t.line_end with
    | (false, msg) =>
      coverageLoop page rest (prev ++ [t]) (i + 1)
        (covered, overl, invalid ++ [(i, t.line_start, t.line_end, msg.getD "")])
    | (true, _) =>
      match t.line_start, t.line_end with
      | some s, some e =>
        coverageLoop page rest (prev ++ [t]) (i + 1)
          (covered ∪ Finset.Icc s e, overl ++ overlapsWithPrev s e prev, invalid)
      | _, _ =>
        -- unreachable: a valid range always has integer bounds
        coverageLoop page rest (prev ++ [t]) (i + 1) (covered, overl, invalid)

/-- Truthiness of `s.strip()`: the stripped string is non-empty exactly when
`s` holds at least one non-whitespace character. -/
def strippedTruthy (s : String) : Bool :=
  s.data.any (fun c => !c.isWhitespace)

/-- `{line.get('line_number', 0) for line in lines if line.get('text', '').strip()}`. -/
def nonEmptyLineNumbers (page : Page) : Finset Int :=
  ((page.lines.filter (fun l => strippedTruthy l.text)).map (fun l => l.line_number)).toFinset

/-- `check_line_coverage(page)`. -/
def check_line_coverage (page : Page) : Coverage :=
  if page.line_tags = [] then
    { total_lines := page.lines.length
      covered_lines := ∅
      missing_lines := Finset.Icc 1 (page.lines.length : Int)
      overlapping_ranges := []
      invalid_ranges := [] }
  else
    let res := coverageLoop page page.line_tags [] 0 (∅, [], [])
    { total_lines := page.lines.length
      covered_lines := res.1
      missing_lines := nonEmptyLineNumbers page \ res.1
      overlapping_ranges := res.2.1
      invalid_ranges := res.2.2 }

/-! ### Stable sorting (model of Python's stable `list.sort` / `sorted`) -/

/-- Insert `x` into `l` immediately before the first element whose key is
strictly greater than `x`'s key.  Applied to an already-sorted `l`, this is a
stable insertion: `x` lands after every earlier element of equal key. -/
def insertSorted {α K : Type} [LinearOrder K] (k : α → K) (x : α) : List α → List α
  | [] => [x]
  | y :: ys => if k x < k y then x :: y :: ys else y :: insertSorted k x ys

/-- Stable sort by key `k`: fold the input in order, inserting each element
into the sorted accumulator.  Elements with equal keys keep their input order,
exactly like Python's Timsort. -/
def stableSortKey {α K : Type} [LinearOrder K] (k : α → K) (l : List α) : List α :=
  l.foldl (fun acc x => insertSorted k x acc) []

/-! ### Python dict as association list (membership / get / overwrite only) -/

/-- `d[key] = v` on a Python dict: overwrite in place if present, else append.
(The association lists built here never hold a key twice, so overwriting the
first hit is the Python dict behaviour.) -/
def dictSet {K V : Type} [DecidableEq K] : List (K × V) → K → V → List (K × V)
  | [], key, v => [(key, v)]
  | p :: rest, key, v =>
    if p.1 = key then (key, v) :: rest else p :: dictSet rest key v

/-- `d.get(key)` / `key in d` on a Python dict. -/
def dictGet {K V : Type} [DecidableEq K] (d : List (K × V)) (key : K) : Option V :=
  (d.find? (fun p => p.1 = key)).map (fun p => p.2)

/-! ### Splice merge engine: `merge_by_insertion_points` -/

/-- Discriminator of the segment dicts: `'type': 'yehuda'` / `'type': 'ruchama'`. -/
inductive SegType where
  | yehuda : SegType
  | ruchama : SegType
deriving DecidableEq

/-- One entry of the `all_segments` list.  Yehuda (base) segments never carry
`line_start`/`line_end`/`insert_reason`/`confidence` in the Python dict; those
fields are `none`/`"medium"` here and are never read on the yehuda branch. -/
structure Segment where
  type : SegType
  page : Int
  chapter : String
  text : String
  insert_position : Int × Int
  line_start : Option Int
  line_end : Option Int
  insert_reason : Option String
  confidence : String
deriving DecidableEq

/-- The sort key of `all_segments.sort`: lexicographic
`(insert_position[0], insert_position[1], 0 if yehuda else 1)`. -/
def segKey (s : Segment) : Int ×ₗ (Int ×ₗ Nat) :=
  toLex (s.insert_position.1,
    toLex (s.insert_position.2, if s.type = SegType.yehuda then 0 else 1))

/-- `[p for p in pages if p.get('book_id') == 'sadot_rishonim']`, then
`.sort(key=lambda p: p.get('page_number', 0))`. -/
def yehudaPages (pages : List Page) : List Page :=
  stableSortKey (fun p => p.page_number)
    (pages.filter (fun p => p.book_id == "sadot_rishonim"))

/-- `[p for p in pages if p.get('book_id') == 'beit_markovski']`, sorted. -/
def ruchamaPages (pages : List Page) : List Page :=
  stableSortKey (fun p => p.page_number)
    (pages.filter (fun p => p.book_id == "beit_markovski"))

/-- `next((p for p in ruchama_pages if p.get('page_number') == source_page), None)`. -/
def findPage (rpages : List Page) (source_page : Int) : Option Page :=
  rpages.find? (fun p => p.page_number == source_page)

/-- The dedup key `f"{source_page}_{source_line_start}_{source_line_end}"`,
modelled by the integer triple itself (the f-string is injective on it). -/
def ipKey (ip : InsertionPoint) : Int × Int × Int :=
  (ip.source_page, ip.source_line_start, ip.source_line_end)

/-- One value of `ruchama_paragraphs_lookup`. -/
structure LookupEntry where
  page : Page
  text : String
  line_start : Int
  line_end : Int
  insertion_point : InsertionPoint
deriving DecidableEq

/-- One iteration of the first `for ip in insertion_points` loop. -/
def buildStep (rpages : List Page) (d : List ((Int × Int × Int) × LookupEntry))
    (ip : InsertionPoint) : List ((Int × Int × Int) × LookupEntry) :=
  match findPage rpages ip.source_page with
  | some pg =>
    dictSet d (ipKey ip)
      { page := pg
        text := extract_text_from_line_range pg ip.source_line_start ip.source_line_end
        line_start := ip.source_line_start
        line_end := ip.source_line_end
        insertion_point := ip }
  | none => d

/-- The first `for ip in insertion_points` loop: build
`ruchama_paragraphs_lookup` (later duplicates overwrite the stored value). -/
def buildLookup (rpages : List Page) (ips : List InsertionPoint) :
    List ((Int × Int × Int) × LookupEntry) :=
  ips.foldl (buildStep rpages) []

/-- The yehuda segment dict appended for each base page. -/
def mkYehudaSeg (p : Page) : Segment :=
  { type := SegType.yehuda
    page := p.page_number
    chapter := p.chapter.getD ""
    text := p.full_text
    insert_position := (p.page_number, 0)
    line_start := none
    line_end := none
    insert_reason := none
    confidence := "medium" }

/-- The ruchama segment dict appended for a hint `ip` whose key resolved to
lookup entry `e` (only `e.page` and `e.text` are read from the entry). -/
def mkRuchamaSeg (e : LookupEntry) (ip : InsertionPoint) : Segment :=
  { type := SegType.ruchama
    page := e.page.page_number
    chapter := e.page.chapter.getD ""
    text := e.text
    insert_position := (ip.insert_after_page, ip.insert_after_line)
    line_start := some ip.source_line_start
    line_end := some ip.source_line_end
    insert_reason := ip.insert_reason
    confidence := ip.confidence.getD "medium" }

/-- The second `for ip in insertion_points` loop: emit one ruchama segment per
key on its first lookup hit (`key in lookup and key not in inserted_segments`),
tracking the `inserted_segments` set. -/
def placedAux (lookup : List ((Int × Int × Int) × LookupEntry)) :
    List InsertionPoint → List (Int × Int × Int) → List Segment
  | [], _ => []
  | ip :: rest, seen =>
    match dictGet lookup (ipKey ip) with
    | some e =>
      if ipKey ip ∈ seen then placedAux lookup rest seen
      else mkRuchamaSeg e ip :: placedAux lookup rest (ipKey ip :: seen)
    | none => placedAux lookup rest seen

/-- All ruchama segments appended to `all_segments`, in emission order. -/
def placedSegments (lookup : List ((Int × Int × Int) × LookupEntry))
    (ips : List InsertionPoint) : List Segment :=
  placedAux lookup ips []

/-- `all_segments` after the final stable sort by `segKey`. -/
def allSegmentsSorted (pages : List Page) (ips : List InsertionPoint) : List Segment :=
  stableSortKey segKey
    ((yehudaPages pages).map mkYehudaSeg ++
      placedSegments (buildLookup (ruchamaPages pages) ips) ips)

/-- One record of the `merged_structure` list of `merge_by_insertion_points`. -/
inductive MergeRec where
  | base (book : String) (page : Int) (preserved_order : Bool) : MergeRec
  | placed (book : String) (page : Int) (line_start line_end : Option Int)
      (inserted_after_page inserted_after_line : Int)
      (insert_reason : Option String) (confidence : String) : MergeRec
deriving DecidableEq

/-- The structure record emitted for one sorted segment. -/
def recOfSegment (s : Segment) : MergeRec :=
  match s.type with
  | SegType.yehuda => MergeRec.base "sadot_rishonim" s.page true
  | SegType.ruchama =>
    MergeRec.placed "beit_markovski" s.page s.line_start s.line_end
      s.insert_position.1 s.insert_position.2 s.insert_reason s.confidence

/-- `str(x)` on the value of a `dict.get` that may be `None`. -/
def optIntStr (o : Option Int) : String :=
  match o with
  | some n => toString n
  | none => "None"

/-- The three `merged_text_parts` appends for one sorted segment
(header, body, trailing newline). -/
def segmentParts (s : Segment) : List String :=
  match s.type with
  | SegType.yehuda =>
    ["\n[משדות ראשונים - " ++ s.chapter ++ ", עמוד " ++ toString s.page ++ "]\n",
      s.text, "\n"]
  | SegType.ruchama =>
    ["\n[מבית מרקובסקי - " ++ s.chapter ++ ", עמוד " ++ toString s.page ++
        ", שורות " ++ optIntStr s.line_start ++ "-" ++ optIntStr s.line_end ++
        (match s.insert_reason with
         | some r => if r ≠ "" then " | " ++ r else ""
         | none => "") ++ "]\n",
      s.text, "\n"]

/-- `merge_by_insertion_points(tagged_data, insertion_data)`: the returned
`(merged_text, merged_structure)` pair, taking the `pages` and
`insertion_points` lists the source reads out of its two dict arguments. -/
def merge_by_insertion_points (pages : List Page) (ips : List InsertionPoint) :
    String × List MergeRec :=
  (String.join (List.flatten ((allSegmentsSorted pages ips).map segmentParts)),
    (allSegmentsSorted pages ips).map recOfSegment)

/-- The body of `merge_by_insertion_points` contains no `print` call and
returns only `(merged_text, merged_structure)`: the run report it emits (e.g.
about skipped duplicate hints or unmatched target pages) is empty. -/
def merge_by_insertion_points_report (_pages : List Page)
    (_ips : List InsertionPoint) : List String := []

/-! ### Grouped fallback merge engine: `merge_by_ai_tags` -/

/-- One element of `line_range_entries` (the fields the rest of the function
reads; the unused `locations` and `characters` fields are omitted). -/
structure RangeEntry where
  book_name : String
  book_id : String
  page_number : Int
  chapter : Option String
  line_start : Int
  line_end : Int
  text : String
  year : Option Int
  month : String
  location : String
  confidence : String
deriving DecidableEq

/-- `x or 'unknown'` on an optional string (`None` and `''` are falsy). -/
def orUnknown (o : Option String) : String :=
  match o with
  | some s => if s = "" then "unknown" else s
  | none => "unknown"

/-- The per-tag body of the extraction loop: skip falsy bounds
(`if not line_start or not line_end`), skip invalid ranges, skip
whitespace-only extracted text, otherwise build the entry dict. -/
def entryOfTag (p : Page) (tag : Tag) : Option RangeEntry :=
  match tag.line_start, tag.line_end with
  | some ls, some le =>
    if ls = 0 ∨ le = 0 then none
    else if (validate_line_range p (some ls) (some le)).1 = false then none
    else
      let text := extract_text_from_line_range p ls le
      if strippedTruthy text = false then none
      else
        some
          { book_name := p.book_name.getD p.book_id
            book_id := p.book_id
            page_number := p.page_number
            chapter := p.chapter
            line_start := ls
            line_end := le
            text := text
            year := tag.year
            month := orUnknown tag.month
            location := orUnknown tag.location
            confidence := tag.confidence.getD "medium" }
  | _, _ => none

/-- `line_range_entries`: all valid, non-empty tag ranges of all pages, in
page order then tag order. -/
def lineRangeEntries (pages : List Page) : List RangeEntry :=
  List.flatten (pages.map (fun p => p.line_tags.filterMap (entryOfTag p)))

/-- `if not year: year = 9999` — the grouping key for an entry's year
(`None` and the falsy `0` both land in the 9999 bucket). -/
def yearKey (e : RangeEntry) : Int :=
  match e.year with
  | none => 9999
  | some y => if y = 0 then 9999 else y

/-- First occurrence of each distinct value, in input order — the key order of
a Python dict built by repeated insertion. -/
def firstOccurrences {α : Type} [DecidableEq α] : List α → List α → List α
  | [], _ => []
  | x :: rest, seen =>
    if x ∈ seen then firstOccurrences rest seen
    else x :: firstOccurrences rest (x :: seen)

/-- `sorted([y for y in grouped_entries.keys() if isinstance(y, int) and y != 9999])`. -/
def knownYears (entries : List RangeEntry) : List Int :=
  stableSortKey (fun y => y)
    ((firstOccurrences (entries.map yearKey) []).filter (fun y => y ≠ 9999))

/-- `grouped_entries[year].keys()` in insertion order. -/
def monthsForYear (entries : List RangeEntry) (y : Int) : List String :=
  firstOccurrences ((entries.filter (fun e => yearKey e == y)).map (fun e => e.month)) []

/-- The fixed canonical month table `months_order`. -/
def months_order : List String :=
  ["ינואר", "פברואר", "מרץ", "מרס", "אפריל", "מאי", "יוני",
    "יולי", "אוגוסט", "ספטמבר", "אוקטובר", "נובמבר", "דצמבר", "unknown"]

/-- `months_order.index(m) if m in months_order else 999`. -/
def monthRank (m : String) : Nat :=
  let i := List.indexOf m months_order
  if i < months_order.length then i else 999

/-- `sorted(year_entries.keys(), key=...)` — stable sort of the months of a
year by their canonical rank. -/
def sortedMonths (entries : List RangeEntry) (y : Int) : List String :=
  stableSortKey monthRank (monthsForYear entries y)

/-- `grouped_entries[year][month].keys()` in insertion order. -/
def locationsForYM (entries : List RangeEntry) (y : Int) (m : String) : List String :=
  firstOccurrences
    ((entries.filter (fun e => yearKey e == y ∧ e.month = m)).map (fun e => e.location)) []

/-- `sorted(month_entries.keys())` — plain lexicographic sort of the
locations.  Python compares strings by code points, which is the
lexicographic order on their character lists. -/
def sortedLocations (entries : List RangeEntry) (y : Int) (m : String) : List String :=
  stableSortKey (fun s => s.data) (locationsForYM entries y m)

/-- `grouped_entries[year][month][location]` after
`location_entries.sort(key=lambda e: (e.get('page_number', 0), e.get('line_start', 0)))`. -/
def groupEntries (entries : List RangeEntry) (y : Int) (m loc : String) :
    List RangeEntry :=
  stableSortKey (fun e => toLex (e.page_number, e.line_start))
    (entries.filter (fun e => yearKey e == y ∧ e.month = m ∧ e.location = loc))

/-- One record of the `merged_structure` list of `merge_by_ai_tags`. -/
structure AIRec where
  year : Int
  month : Option String
  location : Option String
  book : String
  chapter : Option String
  page : Int
  line_start : Int
  line_end : Int
  text_length : Nat
  ai_confidence : String
deriving DecidableEq

/-- The `", שורה n"` / `", שורות a-b"` piece of an entry header. -/
def lineRangePiece (e : RangeEntry) : String :=
  if e.line_start = e.line_end then ", שורה " ++ toString e.line_start
  else ", שורות " ++ toString e.line_start ++ "-" ++ toString e.line_end

/-- The `" - chapter"` piece (`if chapter:` — truthy check). -/
def chapterPiece (e : RangeEntry) : String :=
  match e.chapter with
  | some c => if c ≠ "" then " - " ++ c else ""
  | none => ""

/-- The `tags` list appended to a known-year entry header
(`שנה` if the raw year is truthy, `חודש`/`מיקום` if not `'unknown'`). -/
def entryTagsList (e : RangeEntry) : List String :=
  (match e.year with
   | some y => if y ≠ 0 then ["שנה: " ++ toString y] else []
   | none => []) ++
  (if e.month ≠ "unknown" then ["חודש: " ++ e.month] else []) ++
  (if e.location ≠ "unknown" then ["מיקום: " ++ e.location] else [])

/-- A known-year entry header (with the `| tag, tag` suffix when non-empty). -/
def entryHeader (e : RangeEntry) : String :=
  "\n[מ" ++ e.book_name ++ chapterPiece e ++ ", עמוד " ++ toString e.page_number ++
    lineRangePiece e ++
    (match entryTagsList e with
     | [] => ""
     | tags => " | " ++ String.intercalate ", " tags) ++ "]\n"

/-- An unknown-year entry header (no tag suffix). -/
def entryHeaderNoTags (e : RangeEntry) : String :=
  "\n[מ" ++ e.book_name ++ chapterPiece e ++ ", עמוד " ++ toString e.page_number ++
    lineRangePiece e ++ "]\n"

/-- `'=' * 60`. -/
def eqLine : String := String.mk (List.replicate 60 '=')

/-- The structure record appended for one known-year entry. -/
def recOfEntry (y : Int) (m loc : String) (e : RangeEntry) : AIRec :=
  { year := y
    month := if m ≠ "unknown" then some m else none
    location := if loc ≠ "unknown" then some loc else none
    book := e.book_name
    chapter := e.chapter
    page := e.page_number
    line_start := e.line_start
    line_end := e.line_end
    text_length := e.text.length
    ai_confidence := e.confidence }

/-- The `merged_text_parts` appends of one known-year block. -/
def yearBlockParts (entries : List RangeEntry) (y : Int) : List String :=
  ["\n\n" ++ eqLine ++ "\nשנה: " ++ toString y ++ "\n" ++ eqLine ++ "\n"] ++
    List.flatten ((sortedMonths entries y).map (fun m =>
      (if m ≠ "unknown" then ["\n--- חודש: " ++ m ++ " ---\n"] else []) ++
        List.flatten ((sortedLocations entries y m).map (fun loc =>
          (if loc ≠ "unknown" then ["\n### מיקום: " ++ loc ++ " ###\n"] else []) ++
            List.flatten ((groupEntries entries y m loc).map (fun e =>
              [entryHeader e, e.text, "\n"]))))))

/-- The `merged_structure` appends of one known-year block. -/
def yearBlockRecs (entries : List RangeEntry) (y : Int) : List AIRec :=
  List.flatten ((sortedMonths entries y).map (fun m =>
    List.flatten ((sortedLocations entries y m).map (fun loc =>
      (groupEntries entries y m loc).map (recOfEntry y m loc)))))

/-- The `if 9999 in grouped_entries` trailer: unknown-year blocks are rendered
into the text (months and locations in insertion order, entries sorted by
`(page_number, line_start)`) but append nothing to `merged_structure`. -/
def unknownYearParts (entries : List RangeEntry) : List String :=
  if (entries.map yearKey).contains 9999 then
    ["\n\n" ++ eqLine ++ "\nשנה לא ידועה\n" ++ eqLine ++ "\n"] ++
      List.flatten ((monthsForYear entries 9999).map (fun m =>
        List.flatten ((locationsForYM entries 9999 m).map (fun loc =>
          List.flatten ((groupEntries entries 9999 m loc).map (fun e =>
            [entryHeaderNoTags e, e.text, "\n"]))))))
  else []

/-- The full `merged_text_parts` list of `merge_by_ai_tags`. -/
def aiMergeParts (pages : List Page) : List String :=
  List.flatten ((knownYears (lineRangeEntries pages)).map
      (yearBlockParts (lineRangeEntries pages))) ++
    unknownYearParts (lineRangeEntries pages)

/-- The full `merged_structure` list of `merge_by_ai_tags`. -/
def aiMergeStructure (pages : List Page) : List AIRec :=
  List.flatten ((knownYears (lineRangeEntries pages)).map
    (yearBlockRecs (lineRangeEntries pages)))

/-- `merge_by_ai_tags(tagged_data)`: the returned
`(merged_text, merged_structure)` pair (the function's `print` diagnostics do
not feed the return value and are not modelled). -/
def merge_by_ai_tags (pages : List Page) : String × List AIRec :=
  (String.join (aiMergeParts pages), aiMergeStructure pages)

/-! ### Properties of the stable sort -/

section SortLemmas

variable {α K : Type} [LinearOrder K] (k : α → K)

theorem insertSorted_perm (x : α) (l : List α) :
    (insertSorted k x l).Perm (x :: l) := by
  induction l with
  | nil => simp [insertSorted]
  | cons y ys ih =>
    simp only [insertSorted]
    by_cases h : k x < k y
    · simp [h]
    · simp only [if_neg h]
      exact (ih.cons y).trans (List.Perm.swap x y ys)

theorem mem_insertSorted {z x : α} {l : List α} :
    z ∈ insertSorted k x l ↔ z = x ∨ z ∈ l := by
  rw [(insertSorted_perm k x l).mem_iff, List.mem_cons]

theorem foldl_insertSorted_perm (l acc : List α) :
    (l.foldl (fun a x => insertSorted k x a) acc).Perm (acc ++ l) := by
  induction l generalizing acc with
  | nil => simp
  | cons x rest ih =>
    have h1 : ((x :: rest).foldl (fun a x => insertSorted k x a) acc)
        = rest.foldl (fun a x => insertSorted k x a) (insertSorted k x acc) := rfl
    rw [h1]
    refine (ih _).trans ?_
    refine ((insertSorted_perm k x acc).append_right rest).trans ?_
    exact List.perm_middle.symm

theorem stableSortKey_perm (l : List α) : (stableSortKey k l).Perm l :=
  (foldl_insertSorted_perm k l []).trans (by simp)

theorem insertSorted_pairwise {x : α} {l : List α}
    (h : l.Pairwise (fun a b => k a ≤ k b)) :
    (insertSorted k x l).Pairwise (fun a b => k a ≤ k b) := by
  induction l with
  | nil => simp [insertSorted]
  | cons y ys ih =>
    rw [List.pairwise_cons] at h
    simp only [insertSorted]
    by_cases hlt : k x < k y
    · rw [if_pos hlt, List.pairwise_cons]
      refine ⟨?_, List.pairwise_cons.mpr h⟩
      intro z hz
      rcases List.mem_cons.mp hz with rfl | hz
      · exact le_of_lt hlt
      · exact le_of_lt (lt_of_lt_of_le hlt (h.1 z hz))
    · rw [if_neg hlt, List.pairwise_cons]
      refine ⟨?_, ih h.2⟩
      intro z hz
      rcases (mem_insertSorted k).mp hz with rfl | hz
      · exact le_of_not_lt hlt
      · exact h.1 z hz

theorem foldl_insertSorted_pairwise (l : List α) (acc : List α)
    (h : acc.Pairwise (fun a b => k a ≤ k b)) :
    (l.foldl (fun a x => insertSorted k x a) acc).Pairwise (fun a b => k a ≤ k b) := by
  induction l generalizing acc with
  | nil => exact h
  | cons x rest ih => exact ih _ (insertSorted_pairwise k h)

theorem stableSortKey_pairwise (l : List α) :
    (stableSortKey k l).Pairwise (fun a b => k a ≤ k b) :=
  foldl_insertSorted_pairwise k l [] (by simp)

theorem insertSorted_of_forall_lt {x : α} {l : List α}
    (h : ∀ z ∈ l, k x < k z) : insertSorted k x l = x :: l := by
  cases l with
  | nil => rfl
  | cons y ys => simp [insertSorted, h y (List.mem_cons_self y ys)]

theorem filter_insertSorted (p : α → Bool) (x : α) (l : List α)
    (hs : l.Pairwise (fun a b => k a ≤ k b)) :
    (insertSorted k x l).filter p =
      if p x then insertSorted k x (l.filter p) else l.filter p := by
  induction l with
  | nil =>
    simp only [insertSorted, List.filter]
    cases p x <;> simp [insertSorted]
  | cons y ys ih =>
    rw [List.pairwise_cons] at hs
    simp only [insertSorted]
    by_cases hlt : k x < k y
    · rw [if_pos hlt]
      by_cases hpx : p x
      · rw [if_pos hpx]
        have hfront : ∀ z ∈ (y :: ys).filter p, k x < k z := by
          intro z hz
          rcases List.mem_cons.mp (List.mem_of_mem_filter hz) with rfl | hz'
          · exact hlt
          · exact lt_of_lt_of_le hlt (hs.1 z hz')
        rw [insertSorted_of_forall_lt k hfront]
        simp [List.filter, hpx]
      · simp only [if_neg hpx]
        simp [List.filter, hpx]
    · rw [if_neg hlt]
      by_cases hpy : p y
      · simp only [List.filter, hpy, ih hs.2]
        by_cases hpx : p x
        · simp [hpx, insertSorted, if_neg hlt]
        · simp [hpx]
      · simp [List.filter, hpy, ih hs.2]

theorem filter_foldl_insertSorted (p : α → Bool) (l acc : List α)
    (h : acc.Pairwise (fun a b => k a ≤ k b)) :
    (l.foldl (fun a x => insertSorted k x a) acc).filter p =
      (l.filter p).foldl (fun a x => insertSorted k x a) (acc.filter p) := by
  induction l generalizing acc with
  | nil => rfl
  | cons x rest ih =>
    have step : ((x :: rest).foldl (fun a x => insertSorted k x a) acc)
        = rest.foldl (fun a x => insertSorted k x a) (insertSorted k x acc) := rfl
    rw [step, ih _ (insertSorted_pairwise k h), filter_insertSorted k p x acc h]
    by_cases hpx : p x
    · simp [List.filter, hpx]
    · simp [List.filter, hpx]

theorem filter_stableSortKey (p : α → Bool) (l : List α) :
    (stableSortKey k l).filter p = stableSortKey k (l.filter p) :=
  filter_foldl_insertSorted k p l [] (by simp)

theorem insertSorted_of_forall_not_lt {x : α} {l : List α}
    (h : ∀ z ∈ l, ¬k x < k z) : insertSorted k x l = l ++ [x] := by
  induction l with
  | nil => rfl
  | cons y ys ih =>
    simp only [insertSorted, if_neg (h y (List.mem_cons_self y ys)),
      ih (fun z hz => h z (List.mem_cons_of_mem _ hz)), List.cons_append]

theorem foldl_insertSorted_const_key (k₀ : K) :
    ∀ (l acc : List α), (∀ x ∈ l, k x = k₀) → (∀ x ∈ acc, k x = k₀) →
      l.foldl (fun a x => insertSorted k x a) acc = acc ++ l := by
  intro l
  induction l with
  | nil => intro acc _ _; simp
  | cons x rest ih =>
    intro acc hl hacc
    have hx : k x = k₀ := hl x (List.mem_cons_self x rest)
    have hins : insertSorted k x acc = acc ++ [x] :=
      insertSorted_of_forall_not_lt k
        (fun z hz => by rw [hx, hacc z hz]; exact lt_irrefl k₀)
    have step : ((x :: rest).foldl (fun a x => insertSorted k x a) acc)
        = rest.foldl (fun a x => insertSorted k x a) (insertSorted k x acc) := rfl
    rw [step, hins, ih (acc ++ [x]) (fun q hq => hl q (List.mem_cons_of_mem _ hq))
      (fun q hq => by
        rcases List.mem_append.mp hq with h' | h'
        · exact hacc q h'
        · rcases List.mem_singleton.mp h' with rfl
          exact hx)]
    simp

/-- Stability of the sort: filtering by any predicate that pins the sort key
to a single value commutes with the sort, so elements sharing a key keep
their input order. -/
theorem stableSortKey_stable (p : α → Bool) (k₀ : K) (l : List α)
    (hp : ∀ x, p x = true → k x = k₀) :
    (stableSortKey k l).filter p = l.filter p := by
  rw [filter_stableSortKey]
  have hconst : ∀ x ∈ l.filter p, k x = k₀ :=
    fun x hx => hp x (List.of_mem_filter hx)
  show (l.filter p).foldl (fun a x => insertSorted k x a) [] = l.filter p
  rw [foldl_insertSorted_const_key k k₀ (l.filter p) [] hconst (by simp)]
  simp

theorem pairwise_lt_of_nodup_keys {l : List α}
    (h1 : l.Pairwise (fun a b => k a ≤ k b)) (h2 : (l.map k).Nodup) :
    l.Pairwise (fun a b => k a < k b) := by
  have h3 : l.Pairwise (fun a b => k a ≠ k b) := List.pairwise_map.mp h2
  exact (h1.and h3).imp (fun h => lt_of_le_of_ne h.1 h.2)

theorem eq_of_perm_of_pairwise_lt {l₁ l₂ : List α} (hp : l₁.Perm l₂)
    (h1 : l₁.Pairwise (fun a b => k a < k b))
    (h2 : l₂.Pairwise (fun a b => k a < k b)) : l₁ = l₂ := by
  haveI : IsAntisymm α (fun a b => k a < k b) :=
    ⟨fun _ _ hab hba => absurd hba (lt_asymm hab)⟩
  exact List.eq_of_perm_of_sorted hp h1 h2

theorem stableSortKey_eq_of_perm {l₁ l₂ : List α} (hp : l₁.Perm l₂)
    (hnd : (l₁.map k).Nodup) : stableSortKey k l₁ = stableSortKey k l₂ := by
  have p₁ := stableSortKey_perm k l₁
  have p₂ := stableSortKey_perm k l₂
  have hperm : (stableSortKey k l₁).Perm (stableSortKey k l₂) :=
    p₁.trans (hp.trans p₂.symm)
  have nd₁ : ((stableSortKey k l₁).map k).Nodup :=
    ((p₁.map k).nodup_iff).mpr hnd
  have nd₂ : ((stableSortKey k l₂).map k).Nodup :=
    ((p₂.map k).nodup_iff).mpr (((hp.map k).nodup_iff).mp hnd)
  exact eq_of_perm_of_pairwise_lt k hperm
    (pairwise_lt_of_nodup_keys k (stableSortKey_pairwise k l₁) nd₁)
    (pairwise_lt_of_nodup_keys k (stableSortKey_pairwise k l₂) nd₂)

theorem stableSortKey_eq_self {l : List α}
    (h : l.Pairwise (fun a b => k a < k b)) : stableSortKey k l = l := by
  have p := stableSortKey_perm k l
  have hnd : ((stableSortKey k l).map k).Nodup := by
    refine ((p.map k).nodup_iff).mpr ?_
    exact List.pairwise_map.mpr (h.imp (fun hab => ne_of_lt hab))
  exact eq_of_perm_of_pairwise_lt k p
    (pairwise_lt_of_nodup_keys k (stableSortKey_pairwise k l) hnd) h

end SortLemmas

/-! ### Properties of the dict model -/

theorem dictGet_dictSet {K V : Type} [DecidableEq K]
    (d : List (K × V)) (key' key : K) (v : V) :
    dictGet (dictSet d key v) key' = if key' = key then some v else dictGet d key' := by
  induction d with
  | nil =>
    by_cases h : key' = key
    · simp [dictSet, dictGet, List.find?, h]
    · have h2 : ¬(key = key') := fun hc => h hc.symm
      simp [dictSet, dictGet, List.find?, h, h2]
  | cons p rest ih =>
    by_cases hp : p.1 = key
    · by_cases h : key' = key
      · simp [dictSet, dictGet, List.find?, hp, h]
      · have h2 : ¬(key = key') := fun hc => h hc.symm
        have h3 : ¬(p.1 = key') := fun hc => h2 (hp ▸ hc)
        simp [dictSet, dictGet, List.find?, hp, h, h2, h3]
    · by_cases hk : p.1 = key'
      · have h2 : ¬(key' = key) := fun hc => hp (hk.trans hc)
        simp [dictSet, dictGet, List.find?, hp, hk, h2]
      · simp [dictSet, dictGet, List.find?, hp, hk] at ih ⊢
        exact ih

/-! ### Helper lemmas about the splice merge -/

/-- Boolean test for a base (yehuda) segment. -/
def isYehudaB (s : Segment) : Bool := s.type == SegType.yehuda

/-- Boolean test for a base record of the structure manifest. -/
def isBaseRecB (r : MergeRec) : Bool :=
  match r with
  | MergeRec.base _ _ _ => true
  | MergeRec.placed _ _ _ _ _ _ _ _ => false

theorem isBaseRecB_recOfSegment (s : Segment) :
    isBaseRecB (recOfSegment s) = isYehudaB s := by
  cases h : s.type <;> simp [recOfSegment, isBaseRecB, isYehudaB, h]

theorem placedAux_type (lookup : List ((Int × Int × Int) × LookupEntry)) :
    ∀ (ips : List InsertionPoint) (seen : List (Int × Int × Int)) (s : Segment),
      s ∈ placedAux lookup ips seen → s.type = SegType.ruchama := by
  intro ips
  induction ips with
  | nil => intro seen s h; simp [placedAux] at h
  | cons ip rest ih =>
    intro seen s h
    simp only [placedAux] at h
    split at h
    · split at h
      · exact ih _ s h
      · rcases List.mem_cons.mp h with rfl | h'
        · rfl
        · exact ih _ s h'
    · exact ih _ s h

theorem filter_yehuda_allSegments (pages : List Page) (ips : List InsertionPoint) :
    ((yehudaPages pages).map mkYehudaSeg ++
        placedSegments (buildLookup (ruchamaPages pages) ips) ips).filter isYehudaB
      = (yehudaPages pages).map mkYehudaSeg := by
  rw [List.filter_append]
  have h1 : ((yehudaPages pages).map mkYehudaSeg).filter isYehudaB
      = (yehudaPages pages).map mkYehudaSeg := by
    rw [List.filter_eq_self]
    intro s hs
    rcases List.mem_map.mp hs with ⟨p, _, rfl⟩
    rfl
  have h2 : (placedSegments (buildLookup (ruchamaPages pages) ips) ips).filter isYehudaB
      = [] := by
    rw [List.filter_eq_nil_iff]
    intro s hs
    have := placedAux_type _ _ _ _ hs
    simp [isYehudaB, this]
  rw [h1, h2, List.append_nil]

/-- The sort key of a base segment is determined by its page number alone. -/
theorem segKey_mkYehudaSeg (p : Page) :
    segKey (mkYehudaSeg p) = toLex ((p.page_number : Int), toLex ((0 : Int), (0 : Nat))) := rfl

/-! ### Concrete pages and hints used as test inputs -/

/-- A base-source page with the given page number and full text. -/
def exBasePage (n : Int) (txt : String) : Page :=
  { book_id := "sadot_rishonim"
    book_name := some "שדות ראשונים"
    page_number := n
    chapter := some "פרק"
    full_text := txt
    lines := []
    line_tags := [] }

/-- A secondary-source page with the given page number and lines. -/
def exSecPage (n : Int) (ls : List Line) : Page :=
  { book_id := "beit_markovski"
    book_name := some "בית מרקובסקי"
    page_number := n
    chapter := some "פרק"
    full_text := ""
    lines := ls
    line_tags := [] }

/-! ### C1 -/

/-- C1: for every valid base-source page set (page numbers unique within the
base source), `merge_by_insertion_points` emits exactly one base record per
base page — the manifest's base records are the map of the page-number-sorted
base pages — their relative order is the strictly increasing page-number
order, and the result is the same for every permutation of the input page
list. -/
theorem C1_splice_base_segments (pages pages' : List Page) (ips : List InsertionPoint)
    (hperm : pages.Perm pages')
    (hnd : ((pages.filter (fun p => p.book_id == "sadot_rishonim")).map
      (fun p => p.page_number)).Nodup) :
    ((merge_by_insertion_points pages' ips).2.filter isBaseRecB)
        = (yehudaPages pages).map (fun p => MergeRec.base "sadot_rishonim" p.page_number true)
      ∧ ((yehudaPages pages).map (fun p => p.page_number)).Pairwise (fun a b => a < b) := by
  have hfilperm : (pages.filter (fun p => p.book_id == "sadot_rishonim")).Perm
      (pages'.filter (fun p => p.book_id == "sadot_rishonim")) :=
    hperm.filter _
  have hA : yehudaPages pages = yehudaPages pages' := by
    unfold yehudaPages
    exact stableSortKey_eq_of_perm (fun p => p.page_number) hfilperm hnd
  have hndys : ((yehudaPages pages).map (fun p => p.page_number)).Nodup :=
    (((stableSortKey_perm (fun p : Page => p.page_number) _).map _).nodup_iff).mpr hnd
  have hleys := stableSortKey_pairwise (fun p : Page => p.page_number)
    (pages.filter (fun p => p.book_id == "sadot_rishonim"))
  have hltys : (yehudaPages pages).Pairwise (fun a b => a.page_number < b.page_number) :=
    pairwise_lt_of_nodup_keys _ hleys hndys
  refine ⟨?_, List.pairwise_map.mpr hltys⟩
  have hbases : ((yehudaPages pages).map mkYehudaSeg).Pairwise
      (fun a b => segKey a < segKey b) := by
    refine List.pairwise_map.mpr (hltys.imp ?_)
    intro a b hab
    rw [segKey_mkYehudaSeg, segKey_mkYehudaSeg]
    exact (Prod.Lex.lt_iff _ _).mpr (Or.inl hab)
  have hstep1 : (merge_by_insertion_points pages' ips).2.filter isBaseRecB
      = ((allSegmentsSorted pages' ips).filter isYehudaB).map recOfSegment := by
    show ((allSegmentsSorted pages' ips).map recOfSegment).filter isBaseRecB = _
    rw [List.filter_map]
    congr 1
    exact List.filter_congr (fun s _ => by
      rw [Function.comp_apply, isBaseRecB_recOfSegment])
  have hstep2 : (allSegmentsSorted pages' ips).filter isYehudaB
      = (yehudaPages pages).map mkYehudaSeg := by
    show (stableSortKey segKey _).filter isYehudaB = _
    rw [filter_stableSortKey, filter_yehuda_allSegments, ← hA]
    exact stableSortKey_eq_self segKey hbases
  rw [hstep1, hstep2, List.map_map]
  rfl

/-- Witness for C1 at a concrete input: base pages 1 and 2 given in swapped
input order still produce the base records for pages 1 and 2 in that order. -/
theorem C1_splice_base_segments_witness :
    ((merge_by_insertion_points [exBasePage 2 "b", exBasePage 1 "a"] []).2.filter isBaseRecB)
        = (yehudaPages [exBasePage 1 "a", exBasePage 2 "b"]).map
            (fun p => MergeRec.base "sadot_rishonim" p.page_number true)
      ∧ ((yehudaPages [exBasePage 1 "a", exBasePage 2 "b"]).map
          (fun p => p.page_number)).Pairwise (fun a b => a < b) :=
  C1_splice_base_segments [exBasePage 1 "a", exBasePage 2 "b"]
    [exBasePage 2 "b", exBasePage 1 "a"] []
    (List.Perm.swap (exBasePage 2 "b") (exBasePage 1 "a") [])
    (by decide)

/-! ### C5 -/

/-- A segment that is placed (tier 1) at position `pos` carries the fixed sort
key `(pos.1, pos.2, 1)`. -/
theorem segKey_of_placed_at (pos : Int × Int) (s : Segment)
    (h : decide (s.insert_position = pos ∧ s.type = SegType.ruchama) = true) :
    segKey s = toLex (pos.1, toLex (pos.2, (1 : Nat))) := by
  rw [decide_eq_true_eq] at h
  obtain ⟨h1, h2⟩ := h
  simp [segKey, h1, h2]

/-- The C5 equal-position input: one base page and one two-line secondary page. -/
def c5Pages : List Page :=
  [exBasePage 1 "בסיס", exSecPage 1 [⟨1, "שורה 1"⟩, ⟨2, "שורה 2"⟩]]

/-- A hint placing secondary lines 1–1 after page 1, line 0. -/
def c5HintA : InsertionPoint :=
  { source_page := 1, source_line_start := 1, source_line_end := 1,
    insert_after_page := 1, insert_after_line := 0,
    insert_reason := none, confidence := none }

/-- A hint placing secondary lines 2–2 at the identical position. -/
def c5HintB : InsertionPoint :=
  { source_page := 1, source_line_start := 2, source_line_end := 2,
    insert_after_page := 1, insert_after_line := 0,
    insert_reason := none, confidence := none }

/-- C5: the splice engine stable-sorts every segment list by the lexicographic
key `(page, line, tier)` with base segments at tier 0 and placed segments at
tier 1; placed segments at an identical `(page, line)` position keep their
resolution (first-seen) order — in general, the sorted subsequence of placed
segments at any fixed position equals their emission-order subsequence, and
two equal-position hints render in whichever order they were resolved; and on
the spec's end-to-end example — base pages 1 and 2, one secondary range with
a hint after page 1 line 0 — the merged output is exactly
[base page 1, placed secondary segment, base page 2]. -/
theorem C5_splice_tie_break :
    (∀ (pages : List Page) (ips : List InsertionPoint),
      (allSegmentsSorted pages ips).Pairwise (fun a b => segKey a ≤ segKey b))
      ∧ (∀ (pages : List Page) (ips : List InsertionPoint) (pos : Int × Int),
          (allSegmentsSorted pages ips).filter
              (fun s => decide (s.insert_position = pos ∧ s.type = SegType.ruchama))
            = (placedSegments (buildLookup (ruchamaPages pages) ips) ips).filter
                (fun s => decide (s.insert_position = pos)))
      ∧ (merge_by_insertion_points
          [exBasePage 1 "שנה 1904", exBasePage 2 "שנה 1905", exSecPage 1 [⟨1, "קטע"⟩]]
          [{ source_page := 1, source_line_start := 1, source_line_end := 1,
             insert_after_page := 1, insert_after_line := 0,
             insert_reason := none, confidence := some "high" }]).2
        = [MergeRec.base "sadot_rishonim" 1 true,
           MergeRec.placed "beit_markovski" 1 (some 1) (some 1) 1 0 none "high",
           MergeRec.base "sadot_rishonim" 2 true]
      ∧ (merge_by_insertion_points c5Pages [c5HintA, c5HintB]).2
          = [MergeRec.base "sadot_rishonim" 1 true,
             MergeRec.placed "beit_markovski" 1 (some 1) (some 1) 1 0 none "medium",
             MergeRec.placed "beit_markovski" 1 (some 2) (some 2) 1 0 none "medium"]
      ∧ (merge_by_insertion_points c5Pages [c5HintB, c5HintA]).2
          = [MergeRec.base "sadot_rishonim" 1 true,
             MergeRec.placed "beit_markovski" 1 (some 2) (some 2) 1 0 none "medium",
             MergeRec.placed "beit_markovski" 1 (some 1) (some 1) 1 0 none "medium"] := by
  refine ⟨fun _ _ => stableSortKey_pairwise segKey _, ?_, by decide, by decide, by decide⟩
  intro pages ips pos
  have hstable := stableSortKey_stable segKey
    (fun s => decide (s.insert_position = pos ∧ s.type = SegType.ruchama))
    (toLex (pos.1, toLex (pos.2, (1 : Nat))))
    ((yehudaPages pages).map mkYehudaSeg ++
      placedSegments (buildLookup (ruchamaPages pages) ips) ips)
    (segKey_of_placed_at pos)
  show (stableSortKey segKey _).filter _ = _
  rw [hstable, List.filter_append]
  have h1 : ((yehudaPages pages).map mkYehudaSeg).filter
      (fun s => decide (s.insert_position = pos ∧ s.type = SegType.ruchama)) = [] := by
    rw [List.filter_eq_nil_iff]
    intro s hs
    rcases List.mem_map.mp hs with ⟨p, _, rfl⟩
    simp [mkYehudaSeg]
  have h2 : (placedSegments (buildLookup (ruchamaPages pages) ips) ips).filter
        (fun s => decide (s.insert_position = pos ∧ s.type = SegType.ruchama))
      = (placedSegments (buildLookup (ruchamaPages pages) ips) ips).filter
          (fun s => decide (s.insert_position = pos)) := by
    refine List.filter_congr (fun s hs => ?_)
    have ht := placedAux_type _ _ _ _ hs
    simp [ht]
  rw [h1, h2, List.nil_append]

/-! ### C10 -/

theorem collectTextLines_eq (ls le : Int) (L : List Line) :
    collectTextLines ls le L
      = (L.filter (fun l => decide (ls ≤ l.line_number ∧ l.line_number ≤ le))).map
          (fun l => l.text) := by
  induction L with
  | nil => rfl
  | cons l rest ih =>
    by_cases h : ls ≤ l.line_number ∧ l.line_number ≤ le
    · simp [collectTextLines, List.filter, h, ih]
    · simp [collectTextLines, List.filter, h, ih]

/-- C10: for every page and every pair of integer bounds — inverted, zero,
negative or out-of-bounds included — `extract_text_from_line_range` totally
returns the newline-join of exactly the lines whose number lies in
`[line_start, line_end]`, and the empty string when no line qualifies. -/
theorem C10_extract_total (page : Page) (ls le : Int) :
    extract_text_from_line_range page ls le
        = String.intercalate "\n"
            ((page.lines.filter
                (fun l => decide (ls ≤ l.line_number ∧ l.line_number ≤ le))).map
              (fun l => l.text))
      ∧ ((∀ l ∈ page.lines, ¬(ls ≤ l.line_number ∧ l.line_number ≤ le)) →
          extract_text_from_line_range page ls le = "") := by
  constructor
  · rw [extract_text_from_line_range, collectTextLines_eq]
  · intro h
    rw [extract_text_from_line_range, collectTextLines_eq]
    have hnil : page.lines.filter
        (fun l => decide (ls ≤ l.line_number ∧ l.line_number ≤ le)) = [] :=
      List.filter_eq_nil_iff.mpr (fun l hl => by simpa using h l hl)
    rw [hnil]
    rfl

/-- Witness for C10: an inverted range (5..3) on a two-line page extracts the
empty string. -/
theorem C10_extract_total_witness :
    extract_text_from_line_range (exSecPage 1 [⟨1, "a"⟩, ⟨2, "b"⟩]) 5 3 = "" :=
  (C10_extract_total (exSecPage 1 [⟨1, "a"⟩, ⟨2, "b"⟩]) 5 3).2 (by decide)

/-! ### C2 -/

/-- The C2 test page: a secondary page with exactly two lines. -/
def c2Page : Page := exSecPage 1 [⟨1, "שורה א"⟩, ⟨2, "שורה ב"⟩]

/-- The C2 test hint: its range 1..5 is out of bounds for the two-line page. -/
def c2Hint : InsertionPoint :=
  { source_page := 1, source_line_start := 1, source_line_end := 5,
    insert_after_page := 1, insert_after_line := 0,
    insert_reason := none, confidence := none }

/-- C2 counterexample: a hint whose range is invalid per `validate_line_range`
(1..5 on a two-line page) still contributes a placed segment to the splice
merge output, with the missing lines silently clamped away — the claim that
such a hint fails and contributes nothing is false. -/
theorem C2_counterexample :
    (validate_line_range c2Page (some 1) (some 5)).1 = false
      ∧ (merge_by_insertion_points [c2Page] [c2Hint]).2
          = [MergeRec.placed "beit_markovski" 1 (some 1) (some 5) 1 0 none "medium"]
      ∧ (merge_by_insertion_points [c2Page] [c2Hint]).1
          = "\n[מבית מרקובסקי - פרק, עמוד 1, שורות 1-5]\nשורה א\nשורה ב\n" := by
  refine ⟨by decide, by decide, by decide⟩

/-- C2 amended: `merge_by_insertion_points` never calls `validate_line_range`
on a hint: whenever the hint's secondary page exists, the hint contributes a
placed segment whose text is the silently filtered extraction — even when the
range is invalid. -/
theorem C2_hint_range_not_validated (pages : List Page) (ip : InsertionPoint) (pg : Page)
    (hpg : findPage (ruchamaPages pages) ip.source_page = some pg)
    (_hinv : (validate_line_range pg (some ip.source_line_start)
      (some ip.source_line_end)).1 = false) :
    placedSegments (buildLookup (ruchamaPages pages) [ip]) [ip]
      = [{ type := SegType.ruchama
           page := pg.page_number
           chapter := pg.chapter.getD ""
           text := extract_text_from_line_range pg ip.source_line_start ip.source_line_end
           insert_position := (ip.insert_after_page, ip.insert_after_line)
           line_start := some ip.source_line_start
           line_end := some ip.source_line_end
           insert_reason := ip.insert_reason
           confidence := ip.confidence.getD "medium" }] := by
  simp [placedSegments, placedAux, buildLookup, buildStep, List.foldl, hpg, dictSet,
    dictGet, List.find?, mkRuchamaSeg]

/-- Witness for C2 amended, at the concrete invalid-range hint. -/
theorem C2_hint_range_not_validated_witness :
    placedSegments (buildLookup (ruchamaPages [c2Page]) [c2Hint]) [c2Hint]
      = [{ type := SegType.ruchama
           page := c2Page.page_number
           chapter := c2Page.chapter.getD ""
           text := extract_text_from_line_range c2Page c2Hint.source_line_start
             c2Hint.source_line_end
           insert_position := (c2Hint.insert_after_page, c2Hint.insert_after_line)
           line_start := some c2Hint.source_line_start
           line_end := some c2Hint.source_line_end
           insert_reason := c2Hint.insert_reason
           confidence := c2Hint.confidence.getD "medium" }] :=
  C2_hint_range_not_validated [c2Page] c2Hint c2Page (by decide) (by decide)

/-! ### C3 -/

/-- The C3 test pages: one base page (page 1) and one secondary page. -/
def c3Pages : List Page := [exBasePage 1 "עמוד בסיס", exSecPage 1 [⟨1, "קטע"⟩]]

/-- The C3 test hint: its `insert_after_page = 99` matches no base page. -/
def c3Hint : InsertionPoint :=
  { source_page := 1, source_line_start := 1, source_line_end := 1,
    insert_after_page := 99, insert_after_line := 0,
    insert_reason := none, confidence := none }

/-- C3 counterexample: a hint whose `insert_after_page` (99) matches no base
page (the only base page is 1) is not dropped — its placed segment is present
in the merged output, refuting the claim that it is treated as a resolution
failure and removed. -/
theorem C3_counterexample :
    ((yehudaPages c3Pages).map (fun p => p.page_number) = [1])
      ∧ MergeRec.placed "beit_markovski" 1 (some 1) (some 1) 99 0 none "medium"
          ∈ (merge_by_insertion_points c3Pages [c3Hint]).2 := by
  refine ⟨by decide, by decide⟩

/-- C3 amended: a hint whose `insert_after_page` matches no base page is kept:
its placed segment is sorted by its `(insert_after_page, insert_after_line,
tier 1)` key — here after every base page — and the merge completes normally. -/
theorem C3_unmatched_target_kept :
    (merge_by_insertion_points c3Pages [c3Hint]).2
      = [MergeRec.base "sadot_rishonim" 1 true,
         MergeRec.placed "beit_markovski" 1 (some 1) (some 1) 99 0 none "medium"] := by
  decide

/-! ### C9 -/

/-- The C9 test pages: two base pages sharing page number 1. -/
def c9Pages : List Page := [exBasePage 1 "ראשון", exBasePage 1 "שני"]

/-- C9 counterexample: a base source with a duplicated page number is merged
without any abort — both duplicate pages are rendered, in stable input order —
refuting the claim that the run aborts with a structural-invariant diagnostic
instead of producing output. -/
theorem C9_counterexample :
    (merge_by_insertion_points c9Pages []).2
        = [MergeRec.base "sadot_rishonim" 1 true, MergeRec.base "sadot_rishonim" 1 true]
      ∧ (merge_by_insertion_points c9Pages []).1
        = "\n[משדות ראשונים - פרק, עמוד 1]\nראשון\n\n[משדות ראשונים - פרק, עמוד 1]\nשני\n" := by
  refine ⟨by decide, by decide⟩

/-- C9 amended: `merge_by_insertion_points` checks no structural invariant and
never aborts: for every input — duplicate base page numbers included — it
totally produces an output whose manifest has exactly one base record per
base-source input page. -/
theorem C9_no_structural_abort (pages : List Page) (ips : List InsertionPoint) :
    ((merge_by_insertion_points pages ips).2.filter isBaseRecB).length
      = (pages.filter (fun p => p.book_id == "sadot_rishonim")).length := by
  have hstep1 : (merge_by_insertion_points pages ips).2.filter isBaseRecB
      = ((allSegmentsSorted pages ips).filter isYehudaB).map recOfSegment := by
    show ((allSegmentsSorted pages ips).map recOfSegment).filter isBaseRecB = _
    rw [List.filter_map]
    congr 1
    exact List.filter_congr (fun s _ => by
      rw [Function.comp_apply, isBaseRecB_recOfSegment])
  rw [hstep1, List.length_map]
  have hperm : ((allSegmentsSorted pages ips).filter isYehudaB).Perm
      (((yehudaPages pages).map mkYehudaSeg ++
          placedSegments (buildLookup (ruchamaPages pages) ips) ips).filter isYehudaB) :=
    (stableSortKey_perm segKey _).filter _
  rw [hperm.length_eq, filter_yehuda_allSegments, List.length_map]
  exact ((stableSortKey_perm (fun p : Page => p.page_number) _).length_eq)

/-! ### C4 -/

/-- Every entry of `ruchama_paragraphs_lookup` stores the page found for its
key's `source_page` and the text extracted from that page over the key's line
range (later duplicates overwrite only the unused `insertion_point` field). -/
def goodLookup (rpages : List Page) (d : List ((Int × Int × Int) × LookupEntry)) : Prop :=
  ∀ k e, dictGet d k = some e →
    findPage rpages k.1 = some e.page ∧
      e.text = extract_text_from_line_range e.page k.2.1 k.2.2

theorem buildStep_good (rpages : List Page) (d : List ((Int × Int × Int) × LookupEntry))
    (ip : InsertionPoint) (h : goodLookup rpages d) :
    goodLookup rpages (buildStep rpages d ip) := by
  unfold buildStep
  cases hfp : findPage rpages ip.source_page with
  | none => exact h
  | some pg =>
    intro k e hk
    rw [dictGet_dictSet] at hk
    by_cases hkey : k = ipKey ip
    · subst hkey
      rw [if_pos rfl] at hk
      cases hk
      exact ⟨hfp, rfl⟩
    · rw [if_neg hkey] at hk
      exact h k e hk

theorem foldl_buildStep_good (rpages : List Page) (ips : List InsertionPoint) :
    ∀ d, goodLookup rpages d → goodLookup rpages (ips.foldl (buildStep rpages) d) := by
  induction ips with
  | nil => intro d h; exact h
  | cons ip rest ih => intro d h; exact ih _ (buildStep_good rpages d ip h)

theorem buildLookup_good (rpages : List Page) (ips : List InsertionPoint) :
    goodLookup rpages (buildLookup rpages ips) :=
  foldl_buildStep_good rpages ips [] (fun k e hk => by simp [dictGet, List.find?] at hk)

/-- The page stored for a key carries the key's page number. -/
theorem goodLookup_page_number {rpages : List Page}
    {d : List ((Int × Int × Int) × LookupEntry)} (h : goodLookup rpages d)
    {k : Int × Int × Int} {e : LookupEntry} (hk : dictGet d k = some e) :
    e.page.page_number = k.1 := by
  have h1 := (h k e hk).1
  have h2 := List.find?_some h1
  exact beq_iff_eq.mp h2

theorem buildStep_isSome_mono (rpages : List Page)
    (d : List ((Int × Int × Int) × LookupEntry)) (ip : InsertionPoint)
    (k : Int × Int × Int) (h : (dictGet d k).isSome) :
    (dictGet (buildStep rpages d ip) k).isSome := by
  unfold buildStep
  cases hfp : findPage rpages ip.source_page with
  | none => exact h
  | some pg =>
    rw [dictGet_dictSet]
    by_cases hkey : k = ipKey ip
    · simp [hkey]
    · simpa [hkey] using h

theorem foldl_buildStep_isSome (rpages : List Page) (ips : List InsertionPoint) :
    ∀ d k, (dictGet d k).isSome → (dictGet (ips.foldl (buildStep rpages) d) k).isSome := by
  induction ips with
  | nil => intro d k h; exact h
  | cons ip rest ih => intro d k h; exact ih _ k (buildStep_isSome_mono rpages d ip k h)

theorem buildLookup_isSome_aux (rpages : List Page) (ip : InsertionPoint) (pg : Page)
    (hpg : findPage rpages ip.source_page = some pg) :
    ∀ (ips : List InsertionPoint) (d : List ((Int × Int × Int) × LookupEntry)),
      ip ∈ ips → (dictGet (ips.foldl (buildStep rpages) d) (ipKey ip)).isSome := by
  intro ips
  induction ips with
  | nil => intro d h; cases h
  | cons q rest ih =>
    intro d hmem
    rcases List.mem_cons.mp hmem with rfl | hmem'
    · have h1 : (dictGet (buildStep rpages d ip) (ipKey ip)).isSome := by
        unfold buildStep
        rw [hpg, dictGet_dictSet]
        simp
      exact foldl_buildStep_isSome rpages rest _ _ h1
    · exact ih _ hmem'

theorem buildLookup_isSome (rpages : List Page) (ips : List InsertionPoint)
    (ip : InsertionPoint) (pg : Page) (hmem : ip ∈ ips)
    (hpg : findPage rpages ip.source_page = some pg) :
    (dictGet (buildLookup rpages ips) (ipKey ip)).isSome :=
  buildLookup_isSome_aux rpages ip pg hpg ips [] hmem

/-- Boolean test "this segment's `(page, line_start, line_end)` is the triple `k`". -/
def keyMatchB (s : Segment) (k : Int × Int × Int) : Bool :=
  s.page == k.1 && s.line_start == some k.2.1 && s.line_end == some k.2.2

theorem keyMatchB_mkRuchamaSeg (e : LookupEntry) (ip : InsertionPoint)
    (k : Int × Int × Int) (hpage : e.page.page_number = (ipKey ip).1) :
    keyMatchB (mkRuchamaSeg e ip) k = true ↔ ipKey ip = k := by
  simp only [keyMatchB, mkRuchamaSeg, hpage, ipKey, Bool.and_eq_true, beq_iff_eq,
    Option.some.injEq, Prod.ext_iff]
  tauto

theorem placedAux_cons_some (lookup : List ((Int × Int × Int) × LookupEntry))
    (ip : InsertionPoint) (rest : List InsertionPoint)
    (seen : List (Int × Int × Int)) (e : LookupEntry)
    (hg : dictGet lookup (ipKey ip) = some e) :
    placedAux lookup (ip :: rest) seen =
      if ipKey ip ∈ seen then placedAux lookup rest seen
      else mkRuchamaSeg e ip :: placedAux lookup rest (ipKey ip :: seen) := by
  simp only [placedAux, hg]

theorem placedAux_cons_none (lookup : List ((Int × Int × Int) × LookupEntry))
    (ip : InsertionPoint) (rest : List InsertionPoint)
    (seen : List (Int × Int × Int))
    (hg : dictGet lookup (ipKey ip) = none) :
    placedAux lookup (ip :: rest) seen = placedAux lookup rest seen := by
  simp only [placedAux, hg]

/-- No segment of the placed loop matches a triple that belongs to none of the
remaining hints. -/
theorem placedAux_filter_not_mem (lookup : List ((Int × Int × Int) × LookupEntry))
    (hgood : ∀ k e, dictGet lookup k = some e → e.page.page_number = k.1)
    (k : Int × Int × Int) :
    ∀ (ips : List InsertionPoint) (seen : List (Int × Int × Int)),
      (∀ ip' ∈ ips, ipKey ip' ≠ k) →
      (placedAux lookup ips seen).filter (fun s => keyMatchB s k) = [] := by
  intro ips
  induction ips with
  | nil => intro seen _; rfl
  | cons ip' rest ih =>
    intro seen h
    cases hg : dictGet lookup (ipKey ip') with
    | none =>
      rw [placedAux_cons_none lookup ip' rest seen hg]
      exact ih seen (fun q hq => h q (List.mem_cons_of_mem _ hq))
    | some e' =>
      rw [placedAux_cons_some lookup ip' rest seen e' hg]
      by_cases hin : ipKey ip' ∈ seen
      · rw [if_pos hin]
        exact ih seen (fun q hq => h q (List.mem_cons_of_mem _ hq))
      · rw [if_neg hin, List.filter_cons]
        have hne : ipKey ip' ≠ k := h ip' (List.mem_cons_self ip' rest)
        have hfalse : keyMatchB (mkRuchamaSeg e' ip') k = false := by
          rw [Bool.eq_false_iff]
          intro hc
          exact hne ((keyMatchB_mkRuchamaSeg e' ip' k (hgood _ _ hg)).mp hc)
        rw [hfalse]
        simp only [Bool.false_eq_true, if_false]
        exact ih _ (fun q hq => h q (List.mem_cons_of_mem _ hq))

/-- Once a triple is in `inserted_segments`, the rest of the loop emits no
segment for it. -/
theorem placedAux_filter_seen (lookup : List ((Int × Int × Int) × LookupEntry))
    (hgood : ∀ k e, dictGet lookup k = some e → e.page.page_number = k.1)
    (k : Int × Int × Int) :
    ∀ (ips : List InsertionPoint) (seen : List (Int × Int × Int)),
      k ∈ seen →
      (placedAux lookup ips seen).filter (fun s => keyMatchB s k) = [] := by
  intro ips
  induction ips with
  | nil => intro seen _; rfl
  | cons ip' rest ih =>
    intro seen hseen
    cases hg : dictGet lookup (ipKey ip') with
    | none =>
      rw [placedAux_cons_none lookup ip' rest seen hg]
      exact ih seen hseen
    | some e' =>
      rw [placedAux_cons_some lookup ip' rest seen e' hg]
      by_cases hin : ipKey ip' ∈ seen
      · rw [if_pos hin]
        exact ih seen hseen
      · rw [if_neg hin, List.filter_cons]
        have hne : ipKey ip' ≠ k := fun hc => hin (hc ▸ hseen)
        have hfalse : keyMatchB (mkRuchamaSeg e' ip') k = false := by
          rw [Bool.eq_false_iff]
          intro hc
          exact hne ((keyMatchB_mkRuchamaSeg e' ip' k (hgood _ _ hg)).mp hc)
        rw [hfalse]
        simp only [Bool.false_eq_true, if_false]
        exact ih _ (List.mem_cons_of_mem _ hseen)

/-- The placed loop emits exactly one segment for a triple: the one built from
the first hint carrying that triple. -/
theorem placedAux_filter_first (lookup : List ((Int × Int × Int) × LookupEntry))
    (hgood : ∀ k e, dictGet lookup k = some e → e.page.page_number = k.1)
    (ip : InsertionPoint) (e : LookupEntry)
    (he : dictGet lookup (ipKey ip) = some e) :
    ∀ (pre post : List InsertionPoint) (seen : List (Int × Int × Int)),
      (∀ q ∈ pre, ipKey q ≠ ipKey ip) → ipKey ip ∉ seen →
      (placedAux lookup (pre ++ ip :: post) seen).filter (fun s => keyMatchB s (ipKey ip))
        = [mkRuchamaSeg e ip] := by
  intro pre
  induction pre with
  | nil =>
    intro post seen _ hnotseen
    rw [List.nil_append, placedAux_cons_some lookup ip post seen e he, if_neg hnotseen,
      List.filter_cons]
    have htrue : keyMatchB (mkRuchamaSeg e ip) (ipKey ip) = true :=
      (keyMatchB_mkRuchamaSeg e ip (ipKey ip) (hgood _ _ he)).mpr rfl
    rw [htrue]
    simp only [if_true]
    rw [placedAux_filter_seen lookup hgood (ipKey ip) post _
      (List.mem_cons_self _ _)]
  | cons q pre' ih =>
    intro post seen hpre hnotseen
    rw [List.cons_append]
    cases hg : dictGet lookup (ipKey q) with
    | none =>
      rw [placedAux_cons_none lookup q _ seen hg]
      exact ih post seen (fun r hr => hpre r (List.mem_cons_of_mem _ hr)) hnotseen
    | some e' =>
      rw [placedAux_cons_some lookup q _ seen e' hg]
      have hne : ipKey q ≠ ipKey ip := hpre q (List.mem_cons_self q pre')
      by_cases hin : ipKey q ∈ seen
      · rw [if_pos hin]
        exact ih post seen (fun r hr => hpre r (List.mem_cons_of_mem _ hr)) hnotseen
      · rw [if_neg hin, List.filter_cons]
        have hfalse : keyMatchB (mkRuchamaSeg e' q) (ipKey ip) = false := by
          rw [Bool.eq_false_iff]
          intro hc
          exact hne ((keyMatchB_mkRuchamaSeg e' q (ipKey ip) (hgood _ _ hg)).mp hc)
        rw [hfalse]
        simp only [Bool.false_eq_true, if_false]
        refine ih post _ (fun r hr => hpre r (List.mem_cons_of_mem _ hr)) ?_
        intro hc
        rcases List.mem_cons.mp hc with hc' | hc'
        · exact hne hc'.symm
        · exact hnotseen hc'

/-- C4 (amended): among the hints, the first one carrying a given
`(source_page, source_line_start, source_line_end)` triple whose secondary
page exists wins: the resolver emits exactly one placed segment for that
triple, built from the first-seen hint's placement data; the later duplicates
are silently skipped. -/
theorem C4_dedup_first_seen (pages : List Page) (pre post : List InsertionPoint)
    (ip : InsertionPoint) (pg : Page)
    (hpre : ∀ q ∈ pre, ipKey q ≠ ipKey ip)
    (hpg : findPage (ruchamaPages pages) ip.source_page = some pg) :
    (placedSegments (buildLookup (ruchamaPages pages) (pre ++ ip :: post))
        (pre ++ ip :: post)).filter (fun s => keyMatchB s (ipKey ip))
      = [{ type := SegType.ruchama
           page := pg.page_number
           chapter := pg.chapter.getD ""
           text := extract_text_from_line_range pg ip.source_line_start ip.source_line_end
           insert_position := (ip.insert_after_page, ip.insert_after_line)
           line_start := some ip.source_line_start
           line_end := some ip.source_line_end
           insert_reason := ip.insert_reason
           confidence := ip.confidence.getD "medium" }] := by
  have hgoodfull := buildLookup_good (ruchamaPages pages) (pre ++ ip :: post)
  have hgood : ∀ k e, dictGet (buildLookup (ruchamaPages pages) (pre ++ ip :: post)) k
      = some e → e.page.page_number = k.1 :=
    fun k e hk => goodLookup_page_number hgoodfull hk
  have hsome := buildLookup_isSome (ruchamaPages pages) (pre ++ ip :: post) ip pg
    (by simp) hpg
  obtain ⟨e, he⟩ := Option.isSome_iff_exists.mp hsome
  have hfacts := hgoodfull (ipKey ip) e he
  have hpage : e.page = pg := by
    have h1 : findPage (ruchamaPages pages) ip.source_page = some e.page := hfacts.1
    rw [hpg] at h1
    exact (Option.some_inj.mp h1).symm
  have htext : e.text = extract_text_from_line_range pg ip.source_line_start
      ip.source_line_end := by
    rw [hfacts.2, hpage]
    rfl
  have hmain := placedAux_filter_first _ hgood ip e he pre post [] hpre (by simp)
  rw [placedSegments, hmain, mkRuchamaSeg, hpage, htext]

/-- The C4 test page set: one secondary page with two lines. -/
def c4Pages : List Page := [exSecPage 1 [⟨1, "אחד"⟩, ⟨2, "שניים"⟩]]

/-- The C4 first-seen hint. -/
def c4HintA : InsertionPoint :=
  { source_page := 1, source_line_start := 1, source_line_end := 1,
    insert_after_page := 1, insert_after_line := 0,
    insert_reason := some "r1", confidence := some "high" }

/-- A duplicate of `c4HintA`'s triple with different placement data. -/
def c4HintDup : InsertionPoint :=
  { source_page := 1, source_line_start := 1, source_line_end := 1,
    insert_after_page := 2, insert_after_line := 3,
    insert_reason := some "r2", confidence := some "low" }

/-- Witness for C4 amended: with the duplicate hint pair, exactly one placed
segment is produced, carrying the first hint's placement data. -/
theorem C4_dedup_first_seen_witness :
    (placedSegments (buildLookup (ruchamaPages c4Pages) ([] ++ c4HintA :: [c4HintDup]))
        ([] ++ c4HintA :: [c4HintDup])).filter (fun s => keyMatchB s (ipKey c4HintA))
      = [{ type := SegType.ruchama
           page := (exSecPage 1 [⟨1, "אחד"⟩, ⟨2, "שניים"⟩]).page_number
           chapter := (exSecPage 1 [⟨1, "אחד"⟩, ⟨2, "שניים"⟩]).chapter.getD ""
           text := extract_text_from_line_range (exSecPage 1 [⟨1, "אחד"⟩, ⟨2, "שניים"⟩])
             c4HintA.source_line_start c4HintA.source_line_end
           insert_position := (c4HintA.insert_after_page, c4HintA.insert_after_line)
           line_start := some c4HintA.source_line_start
           line_end := some c4HintA.source_line_end
           insert_reason := c4HintA.insert_reason
           confidence := c4HintA.confidence.getD "medium" }] :=
  C4_dedup_first_seen c4Pages [] [c4HintDup] c4HintA
    (exSecPage 1 [⟨1, "אחד"⟩, ⟨2, "שניים"⟩]) (by intro q hq; cases hq) (by decide)

/-- C4 counterexample: two hints with the identical triple produce exactly one
placed record (built from the first hint) while the merge run's report is
empty — the skipped duplicate is silently dropped, not "reported as skipped". -/
theorem C4_counterexample :
    (merge_by_insertion_points c4Pages [c4HintA, c4HintDup]).2
        = [MergeRec.placed "beit_markovski" 1 (some 1) (some 1) 1 0 (some "r1") "high"]
      ∧ merge_by_insertion_points_report c4Pages [c4HintA, c4HintDup] = [] := by
  refine ⟨by decide, rfl⟩

/-! ### C8 -/

/-- The set of line numbers a tag's range spans (`set(range(s, e+1))`). -/
def tagRange (t : Tag) : Finset Int :=
  match t.line_start, t.line_end with
  | some s, some e => Finset.Icc s e
  | _, _ => ∅

/-- The union of all tag ranges of a list. -/
def tagsCovered (ts : List Tag) : Finset Int :=
  ts.foldr (fun t acc => tagRange t ∪ acc) ∅

theorem validate_true_shape (page : Page) (a b : Option Int)
    (h : (validate_line_range page a b).1 = true) :
    validate_line_range page a b = (true, none) ∧
      ∃ s e, a = some s ∧ b = some e := by
  cases a with
  | none => simp [validate_line_range] at h
  | some s =>
    cases b with
    | none => simp [validate_line_range] at h
    | some e =>
      refine ⟨?_, s, e, rfl, rfl⟩
      simp only [validate_line_range] at h ⊢
      split_ifs at h ⊢
      simp_all

theorem overlapsWithPrev_eq_nil (s e : Int) (prev : List Tag)
    (h : ∀ p ∈ prev, Finset.Icc s e ∩ tagRange p = ∅) :
    overlapsWithPrev s e prev = [] := by
  induction prev with
  | nil => rfl
  | cons p rest ih =>
    have hp := h p (List.mem_cons_self p rest)
    have hrest : ∀ q ∈ rest, Finset.Icc s e ∩ tagRange q = ∅ :=
      fun q hq => h q (List.mem_cons_of_mem _ hq)
    cases hls : p.line_start with
    | none => simp only [overlapsWithPrev, hls]; exact ih hrest
    | some ps =>
      cases hle : p.line_end with
      | none => simp only [overlapsWithPrev, hls, hle]; exact ih hrest
      | some pe =>
        simp only [overlapsWithPrev, hls, hle]
        by_cases hz : ps ≠ 0 ∧ pe ≠ 0
        · rw [if_pos hz]
          have hrange : tagRange p = Finset.Icc ps pe := by
            simp [tagRange, hls, hle]
          rw [hrange] at hp
          rw [if_neg (by rw [hp]; exact Finset.not_nonempty_empty)]
          exact ih hrest
        · rw [if_neg hz]
          exact ih hrest

theorem coverageLoop_cons_valid (page : Page) (t : Tag) (ts prev : List Tag)
    (i : Nat) (covered : Finset Int)
    (ov : List ((Int × Int) × (Int × Int)))
    (inv : List (Nat × Option Int × Option Int × String)) (s e : Int)
    (hb : t.line_start = some s) (hbe : t.line_end = some e)
    (hv : validate_line_range page t.line_start t.line_end = (true, none)) :
    coverageLoop page (t :: ts) prev i (covered, ov, inv)
      = coverageLoop page ts (prev ++ [t]) (i + 1)
          (covered ∪ Finset.Icc s e, ov ++ overlapsWithPrev s e prev, inv) := by
  have hv' : validate_line_range page (some s) (some e) = (true, none) := by
    rw [← hb, ← hbe]; exact hv
  simp only [coverageLoop, hb, hbe, hv']

/-- If every tag is valid and the tags are pairwise disjoint, the coverage
loop only accumulates the union of the ranges: no overlap pair and no invalid
record is ever appended. -/
theorem coverageLoop_inv (page : Page) :
    ∀ (ts prev : List Tag) (i : Nat) (covered : Finset Int)
      (ov : List ((Int × Int) × (Int × Int)))
      (inv : List (Nat × Option Int × Option Int × String)),
      (∀ t ∈ ts, (validate_line_range page t.line_start t.line_end).1 = true) →
      (∀ t ∈ ts, ∀ p ∈ prev, tagRange t ∩ tagRange p = ∅) →
      ts.Pairwise (fun a b => tagRange a ∩ tagRange b = ∅) →
      coverageLoop page ts prev i (covered, ov, inv)
        = (covered ∪ tagsCovered ts, ov, inv) := by
  intro ts
  induction ts with
  | nil => intro prev i covered ov inv _ _ _; simp [coverageLoop, tagsCovered]
  | cons t rest ih =>
    intro prev i covered ov inv hvalid hprev hpair
    obtain ⟨hv, s, e, hb, hbe⟩ :=
      validate_true_shape page t.line_start t.line_end
        (hvalid t (List.mem_cons_self t rest))
    rw [coverageLoop_cons_valid page t rest prev i covered ov inv s e hb hbe hv]
    have hovnil : overlapsWithPrev s e prev = [] := by
      refine overlapsWithPrev_eq_nil s e prev (fun p hp => ?_)
      have := hprev t (List.mem_cons_self t rest) p hp
      have hrt : tagRange t = Finset.Icc s e := by simp [tagRange, hb, hbe]
      rw [hrt] at this
      exact this
    rw [hovnil, List.append_nil]
    rw [List.pairwise_cons] at hpair
    rw [ih (prev ++ [t]) (i + 1) _ ov inv
      (fun q hq => hvalid q (List.mem_cons_of_mem _ hq))
      (fun q hq p hp => by
        rcases List.mem_append.mp hp with hp' | hp'
        · exact hprev q (List.mem_cons_of_mem _ hq) p hp'
        · rcases List.mem_singleton.mp hp' with rfl
          rw [Finset.inter_comm]
          exact hpair.1 q hq)
      hpair.2]
    have hrt : tagRange t = Finset.Icc s e := by simp [tagRange, hb, hbe]
    have hcov : tagsCovered (t :: rest) = Finset.Icc s e ∪ tagsCovered rest := by
      simp only [tagsCovered, List.foldr]
      rw [hrt]
    rw [hcov, ← Finset.union_assoc]

/-- C8 (amended): on a page with a non-empty tag list whose tags are all valid,
pairwise disjoint, and cover every non-empty line, `check_line_coverage`
returns an empty gap set and an empty overlap list (and no invalid records). -/
theorem C8_full_coverage (page : Page)
    (hne : page.line_tags ≠ [])
    (hvalid : ∀ t ∈ page.line_tags,
      (validate_line_range page t.line_start t.line_end).1 = true)
    (hdisj : page.line_tags.Pairwise (fun a b => tagRange a ∩ tagRange b = ∅))
    (hcover : nonEmptyLineNumbers page ⊆ tagsCovered page.line_tags) :
    (check_line_coverage page).missing_lines = ∅
      ∧ (check_line_coverage page).overlapping_ranges = []
      ∧ (check_line_coverage page).invalid_ranges = [] := by
  unfold check_line_coverage
  rw [if_neg hne]
  rw [coverageLoop_inv page page.line_tags [] 0 ∅ [] [] hvalid (by simp) hdisj]
  refine ⟨?_, rfl, rfl⟩
  simp only [Finset.empty_union]
  rw [Finset.sdiff_eq_empty_iff_subset]
  exact hcover

/-- A page fully covered by two disjoint valid tags. -/
def c8FullPage : Page :=
  { book_id := "b", book_name := none, page_number := 1, chapter := none,
    full_text := "", lines := [⟨1, "x"⟩, ⟨2, "y"⟩],
    line_tags := [⟨some 1, some 1, none, none, none, none⟩,
                  ⟨some 2, some 2, none, none, none, none⟩] }

/-- Witness for C8 amended on the fully covered page. -/
theorem C8_full_coverage_witness :
    (check_line_coverage c8FullPage).missing_lines = ∅
      ∧ (check_line_coverage c8FullPage).overlapping_ranges = []
      ∧ (check_line_coverage c8FullPage).invalid_ranges = [] :=
  C8_full_coverage c8FullPage (by decide) (by decide) (by decide) (by decide)

/-- A page with one empty line and no tags. -/
def c8EmptyTagsPage : Page :=
  { book_id := "b", book_name := none, page_number := 1, chapter := none,
    full_text := "", lines := [⟨1, "x"⟩, ⟨2, ""⟩], line_tags := [] }

/-- A page whose first tag is invalid (out of bounds) yet participates in the
overlap scan of the second, valid tag. -/
def c8InvalidOverlapPage : Page :=
  { book_id := "b", book_name := none, page_number := 1, chapter := none,
    full_text := "", lines := [⟨1, "x"⟩, ⟨2, "y"⟩],
    line_tags := [⟨some 1, some 99, none, none, none, none⟩,
                  ⟨some 1, some 2, none, none, none, none⟩] }

/-- C8 counterexample: (a) with an empty tag list the gap set is all lines
1..N, including the empty line 2, so it is not "exactly the non-empty lines
not covered"; (b) the overlap list pairs a valid range with an earlier range
that is itself invalid (1..99 on a two-line page), so overlaps are not
computed only among valid ranges. -/
theorem C8_counterexample :
    (check_line_coverage c8EmptyTagsPage).missing_lines = {1, 2}
      ∧ nonEmptyLineNumbers c8EmptyTagsPage
          \ (check_line_coverage c8EmptyTagsPage).covered_lines = {1}
      ∧ (check_line_coverage c8EmptyTagsPage).missing_lines
          ≠ nonEmptyLineNumbers c8EmptyTagsPage
              \ (check_line_coverage c8EmptyTagsPage).covered_lines
      ∧ (validate_line_range c8InvalidOverlapPage (some 1) (some 99)).1 = false
      ∧ (check_line_coverage c8InvalidOverlapPage).overlapping_ranges
          = [((1, 99), (1, 2))] := by
  refine ⟨by decide, by decide, by decide, by decide, by decide⟩

/-! ### C6 -/

/-- Every record emitted by a year block carries that year. -/
theorem yearBlockRecs_year (entries : List RangeEntry) (y : Int) :
    ∀ r ∈ yearBlockRecs entries y, r.year = y := by
  intro r hr
  simp only [yearBlockRecs, List.mem_flatten, List.mem_map] at hr
  obtain ⟨l1, ⟨m, hm, hl1⟩, hr1⟩ := hr
  subst hl1
  simp only [List.mem_flatten, List.mem_map] at hr1
  obtain ⟨l2, ⟨loc, hloc, hl2⟩, hr2⟩ := hr1
  subst hl2
  simp only [List.mem_map] at hr2
  obtain ⟨e, _, hre⟩ := hr2
  subst hre
  rfl

/-- The C6 single-tag page: page `n`, one line, a tag with the given year. -/
def c6YearPg (n : Int) (y : Option Int) (txt : String) : Page :=
  { book_id := "beit_markovski", book_name := some "ב", page_number := n,
    chapter := none, full_text := "",
    lines := [⟨1, txt⟩],
    line_tags := [{ line_start := some 1, line_end := some 1, year := y,
                    month := none, location := none, confidence := none }] }

/-- C6 (amended): the grouped fallback engine orders its manifest by year in
non-decreasing order (null years are diverted to the unknown bucket, which is
rendered last in the text and omitted from the manifest), and on segments
tagged 1905 / 1904 / null the rendered text is the 1904 segment, then the
1905 segment, then the unknown-year segment last. -/
theorem C6_grouped_year_order (pages : List Page) :
    ((merge_by_ai_tags pages).2.map (fun r => r.year)).Pairwise (fun a b => a ≤ b)
      ∧ aiMergeParts
          [c6YearPg 2 (some 1905) "t1905", c6YearPg 1 (some 1904) "t1904",
            c6YearPg 3 none "tnone"]
        = ["\n\n" ++ eqLine ++ "\nשנה: 1904\n" ++ eqLine ++ "\n",
           "\n[מב, עמוד 1, שורה 1 | שנה: 1904]\n", "t1904", "\n",
           "\n\n" ++ eqLine ++ "\nשנה: 1905\n" ++ eqLine ++ "\n",
           "\n[מב, עמוד 2, שורה 1 | שנה: 1905]\n", "t1905", "\n",
           "\n\n" ++ eqLine ++ "\nשנה לא ידועה\n" ++ eqLine ++ "\n",
           "\n[מב, עמוד 3, שורה 1]\n", "tnone", "\n"] := by
  constructor
  · show ((aiMergeStructure pages).map (fun r => r.year)).Pairwise (fun a b => a ≤ b)
    rw [aiMergeStructure, List.map_flatten, List.pairwise_flatten]
    have hyears : (knownYears (lineRangeEntries pages)).Pairwise (fun a b => a ≤ b) :=
      stableSortKey_pairwise (fun y => y) _
    constructor
    · intro l hl
      simp only [List.map_map, List.mem_map] at hl
      obtain ⟨y, _, rfl⟩ := hl
      refine List.pairwise_of_forall_mem_list (fun a ha b hb => ?_)
      simp only [Function.comp_apply, List.mem_map] at ha hb
      obtain ⟨r1, hr1, rfl⟩ := ha
      obtain ⟨r2, hr2, rfl⟩ := hb
      rw [yearBlockRecs_year _ y r1 hr1, yearBlockRecs_year _ y r2 hr2]
    · rw [List.map_map, List.pairwise_map]
      refine hyears.imp ?_
      intro y1 y2 h12 x hx z hz
      simp only [Function.comp_apply, List.mem_map] at hx hz
      obtain ⟨r1, hr1, rfl⟩ := hx
      obtain ⟨r2, hr2, rfl⟩ := hz
      rw [yearBlockRecs_year _ y1 r1 hr1, yearBlockRecs_year _ y2 r2 hr2]
      exact h12
  · decide

/-- The C6 counterexample page: two segments of the same year, one located
"תל אביב", one with a null location (→ "unknown"). -/
def c6LocPage : Page :=
  { book_id := "beit_markovski", book_name := some "בית מרקובסקי", page_number := 1,
    chapter := none, full_text := "",
    lines := [⟨1, "aaa"⟩, ⟨2, "bbb"⟩],
    line_tags :=
      [{ line_start := some 1, line_end := some 1, year := some 1904,
         month := none, location := some "תל אביב", confidence := some "high" },
       { line_start := some 2, line_end := some 2, year := some 1904,
         month := none, location := none, confidence := some "high" }] }

/-- C6 counterexample: locations are sorted by plain code-point order, in
which "unknown" precedes the Hebrew location — so the unknown-location group
is rendered first, not last, refuting the "location ... with 'unknown' last"
ordering. -/
theorem C6_counterexample :
    ((merge_by_ai_tags [c6LocPage]).2.map (fun r => r.location))
        = [none, some "תל אביב"]
      ∧ "unknown".data < "תל אביב".data
      ∧ ((merge_by_ai_tags [c6LocPage]).2.map (fun r => r.location))
          ≠ [some "תל אביב", none] := by
  refine ⟨by decide, by decide, by decide⟩

/-! ### C7 -/

/-- The C7 failing input: one page whose only tag has a null year. -/
def c7Page : Page :=
  { book_id := "beit_markovski", book_name := some "ב", page_number := 3, chapter := none,
    full_text := "", lines := [⟨1, "xyz"⟩],
    line_tags := [⟨some 1, some 1, none, none, none, none⟩] }

/-- C7 (code bug): the unknown-year bucket of `merge_by_ai_tags` renders its
segment into the text — four parts: banner, header, text, newline — while the
structure manifest stays empty, so the manifest is not one record per rendered
segment. -/
theorem C7_unknown_year_manifest_gap :
    aiMergeParts [c7Page]
        = ["\n\n" ++ eqLine ++ "\nשנה לא ידועה\n" ++ eqLine ++ "\n",
           "\n[מב, עמוד 3, שורה 1]\n", "xyz", "\n"]
      ∧ (merge_by_ai_tags [c7Page]).2 = [] := by
  refine ⟨by decide, by decide⟩

end SadotRishonim
